import Mathlib

/-!
Verification development for the mu_sched cooperative scheduler
(src/src/mu_sched.c, src/inc/mu_sched.h).

The scheduler manages borrowed task references (thunks) across three
queues (interrupt / asap / event) plus an idle hook.  We embed the
scheduler state shallowly:

* a thunk pointer is a `Nat` identifier; a nullable thunk argument is
  `Option Nat` (`none` models `NULL`);
* `mu_time_abs_t` is `Nat` with `mu_time_is_before = (· < ·)` and
  `mu_time_is_after = (· > ·)`; `mu_time_offset` is addition;
* the external containers (mu_spsc ring, mu_pqueue FIFO, mu_pvec sorted
  vector, mu_pool fixed-block pool) are out-of-repo collaborators; they
  are modelled from their documented contracts: bounded lists for the
  queues (put appends, get removes the head, pvec peek/pop act on the
  tail) and a free-block counter for the pool;
* `mu_thunk_call` is external; a task invocation is recorded in a trace
  as the pair of the invoked thunk and the value `mu_sched_current_thunk`
  returns while that invocation is in progress.
-/

/-- Embedding of `mu_event_t` (inc/mu_sched.h): a thunk paired with the
absolute time at which it should run. -/
structure MuEvent where
  thunk : Nat
  timestamp : Nat
deriving Repr, DecidableEq

/-- Embedding of the scheduler singleton `mu_sched_t` together with the
contents and capacities of the four user-provided containers and the
`s_sched_initialized` flag.  `now` is the value the installed `get_time`
function currently returns (time functions are modelled by their value). -/
structure Sched where
  interrupt_q : List Nat
  interrupt_cap : Nat
  asap_q : List Nat
  asap_cap : Nat
  event_q : List MuEvent
  event_cap : Nat
  pool_free : Nat
  pool_cap : Nat
  idle_thunk : Option Nat
  now : Nat
  current_thunk : Option Nat
  initialized : Bool
deriving Repr, DecidableEq

/-- Embedding of `compare_events` (mu_sched.c): ascending comparison that
treats the earlier timestamp as sorting later, so the soonest event sits
at the tail of the event queue. -/
def compare_events (a b : MuEvent) : Int :=
  if a.timestamp < b.timestamp then 1
  else if b.timestamp < a.timestamp then -1
  else 0

/-- Modelled from the spec: `mu_pvec_sorted_insert` with the
`MU_STORE_INSERT_FIRST` tie policy (the mu_pvec module is an external
collaborator).  The new item is placed before the first existing item it
does not sort strictly after, so equal-key items land before existing
ones. -/
def sorted_insert_first (l : List MuEvent) (e : MuEvent) : List MuEvent :=
  match l with
  | [] => [e]
  | x :: xs =>
    if compare_events e x ≤ 0 then e :: x :: xs
    else x :: sorted_insert_first xs e

/-- Modelled from the spec: the platform clock `mu_time_now` (the mu_time
module is external); its concrete value is irrelevant to the claims. -/
def mu_time_now : Nat := 0

/-- Embedding of `mu_sched_init`: the four Booleans model the non-nullness
of the user-supplied container pointers; on failure the initialized flag is
cleared and the rest of the singleton is left as it was.  On success the
model installs freshly initialized (empty) containers with the given
capacities, clears the idle and current thunks and installs the default
time source. -/
def mu_sched_init (s : Sched) (iq_ok aq_ok eq_ok pool_ok : Bool)
    (icap acap ecap pcap : Nat) : Sched × Bool :=
  if iq_ok = false ∨ aq_ok = false ∨ eq_ok = false ∨ pool_ok = false then
    ({ s with initialized := false }, false)
  else
    ({ interrupt_q := [], interrupt_cap := icap,
       asap_q := [], asap_cap := acap,
       event_q := [], event_cap := ecap,
       pool_free := pcap, pool_cap := pcap,
       idle_thunk := none, now := mu_time_now,
       current_thunk := none, initialized := true }, true)

/-- Embedding of `mu_sched_now`: push the thunk onto the asap queue;
fails when uninitialized, on a null thunk, or when the queue is full. -/
def mu_sched_now (s : Sched) (thunk : Option Nat) : Sched × Bool :=
  if s.initialized = false then (s, false)
  else
    match thunk with
    | none => (s, false)
    | some t =>
      if s.asap_q.length < s.asap_cap then
        ({ s with asap_q := s.asap_q ++ [t] }, true)
      else (s, false)

/-- Embedding of `mu_sched_at`: allocate an event wrapper from the pool,
fill it, and sorted-insert it into the event queue; on insert failure the
wrapper is freed back (so the pool is net unchanged) and the call fails. -/
def mu_sched_at (s : Sched) (thunk : Option Nat) (timestamp : Nat) :
    Sched × Bool :=
  if s.initialized = false then (s, false)
  else
    match thunk with
    | none => (s, false)
    | some t =>
      if s.pool_free = 0 then (s, false)
      else
        if s.event_q.length < s.event_cap then
          ({ s with
              event_q := sorted_insert_first s.event_q ⟨t, timestamp⟩,
              pool_free := s.pool_free - 1 }, true)
        else (s, false)

/-- Embedding of `mu_sched_in`: compute `get_time() + delay` and defer to
`mu_sched_at` (the relative delay is modelled as a nonnegative offset). -/
def mu_sched_in (s : Sched) (thunk : Option Nat) (delay : Nat) :
    Sched × Bool :=
  if s.initialized = false then (s, false)
  else
    match thunk with
    | none => (s, false)
    | some t => mu_sched_at s (some t) (s.now + delay)

/-- Embedding of `mu_sched_from_isr`: push the thunk onto the interrupt
(spsc) queue; fails when uninitialized, on a null thunk, or when the ring
is full. -/
def mu_sched_from_isr (s : Sched) (thunk : Option Nat) : Sched × Bool :=
  if s.initialized = false then (s, false)
  else
    match thunk with
    | none => (s, false)
    | some t =>
      if s.interrupt_q.length < s.interrupt_cap then
        ({ s with interrupt_q := s.interrupt_q ++ [t] }, true)
      else (s, false)

/-- Embedding of `mu_sched_set_idle_thunk`: install or clear the idle
hook; no-op when uninitialized. -/
def mu_sched_set_idle_thunk (s : Sched) (idle : Option Nat) : Sched :=
  if s.initialized = false then s
  else { s with idle_thunk := idle }

/-- Embedding of `mu_sched_set_time_fn`: install a time function (modelled
by the value it returns); a null argument restores the platform default
`mu_time_now`; no-op when uninitialized. -/
def mu_sched_set_time_fn (s : Sched) (fn : Option Nat) : Sched :=
  if s.initialized = false then s
  else { s with now := fn.getD mu_time_now }

/-- Embedding of `mu_sched_current_thunk`: the currently executing thunk,
or none when uninitialized or outside any invocation. -/
def mu_sched_current_thunk (s : Sched) : Option Nat :=
  if s.initialized = false then none
  else s.current_thunk

/-- Embedding of `mu_sched_has_runnable_thunk`: true iff the asap queue is
non-empty (the interrupt and event queues are deliberately not
inspected); false when uninitialized. -/
def mu_sched_has_runnable_thunk (s : Sched) : Bool :=
  if s.initialized = false then false
  else !s.asap_q.isEmpty

/-- Body of the event-promotion loop of `mu_sched_step` (phase 2),
recursing on an explicit iteration bound: each loop iteration removes
exactly one wrapper from the event queue, so the queue length at entry
bounds the number of iterations.  One iteration: if the asap queue has no
room, stop; if the event queue is empty, stop; if the tail event is not
yet due (its timestamp is strictly after `now`), stop; otherwise pop the
wrapper, push its thunk onto the asap queue and free the wrapper back to
the pool.  The inner capacity re-check mirrors the defensive
`mu_pqueue_put` failure branch of the source (free the wrapper and
stop). -/
def promote_go (fuel : Nat) (asap : List Nat) (acap : Nat)
    (eventq : List MuEvent) (pool_free : Nat) (now : Nat) :
    List Nat × List MuEvent × Nat :=
  match fuel with
  | 0 => (asap, eventq, pool_free)
  | fuel' + 1 =>
    if acap ≤ asap.length then (asap, eventq, pool_free)
    else
      match eventq.getLast? with
      | none => (asap, eventq, pool_free)
      | some evt =>
        if now < evt.timestamp then (asap, eventq, pool_free)
        else if asap.length < acap then
          promote_go fuel' (asap ++ [evt.thunk]) acap eventq.dropLast
            (pool_free + 1) now
        else
          (asap, eventq.dropLast, pool_free + 1)

/-- Embedding of the event-promotion loop of `mu_sched_step` (phase 2):
run the loop body with the event-queue length as the iteration bound.
Returns the new asap queue, event queue and pool free count. -/
def promote (asap : List Nat) (acap : Nat) (eventq : List MuEvent)
    (pool_free : Nat) (now : Nat) : List Nat × List MuEvent × Nat :=
  promote_go eventq.length asap acap eventq pool_free now

/-- Embedding of `mu_sched_step`.  Returns the new scheduler state and the
invocation trace of this call: each entry pairs the invoked thunk with
the value `mu_sched_current_thunk` returns during that invocation.
Phases: initialization gate, recursion guard, interrupt drain (one item,
short-circuits), event promotion at the once-sampled current time, asap
dispatch, idle hook. -/
def mu_sched_step (s : Sched) : Sched × List (Nat × Option Nat) :=
  if s.initialized = false then (s, [])
  else if s.current_thunk ≠ none then (s, [])
  else
    match s.interrupt_q with
    | isr :: irest =>
      let s1 : Sched := { s with interrupt_q := irest, current_thunk := some isr }
      ({ s1 with current_thunk := none }, [(isr, mu_sched_current_thunk s1)])
    | [] =>
      let pr := promote s.asap_q s.asap_cap s.event_q s.pool_free s.now
      let s2 : Sched :=
        { s with asap_q := pr.1, event_q := pr.2.1, pool_free := pr.2.2 }
      match pr.1 with
      | t :: rest =>
        let s3 : Sched := { s2 with asap_q := rest, current_thunk := some t }
        ({ s3 with current_thunk := none }, [(t, mu_sched_current_thunk s3)])
      | [] =>
        match s.idle_thunk with
        | some t =>
          let s3 : Sched := { s2 with current_thunk := some t }
          ({ s3 with current_thunk := none }, [(t, mu_sched_current_thunk s3)])
        | none => (s2, [])

/-- The pool/event-queue conservation invariant: free pool blocks plus
wrappers held in the event queue account for the whole pool capacity
(equivalently, live allocations `pool_cap - pool_free` equal the number
of queued wrappers). -/
def pool_invariant (s : Sched) : Prop :=
  s.pool_free + s.event_q.length = s.pool_cap

/-! Characterization of the promotion loop. -/

/-- An empty event queue stops promotion immediately. -/
lemma promote_stop_empty (asap : List Nat) (acap : Nat) (pf now : Nat) :
    promote asap acap [] pf now = (asap, [], pf) := rfl

/-- A full asap queue stops promotion immediately. -/
lemma promote_stop_full (asap : List Nat) (acap : Nat) (eventq : List MuEvent)
    (pf now : Nat) (h : acap ≤ asap.length) :
    promote asap acap eventq pf now = (asap, eventq, pf) := by
  cases eventq with
  | nil => rfl
  | cons e es => simp [promote, promote_go, h]

/-- A tail event that is not yet due stops promotion immediately. -/
lemma promote_stop_not_due (asap : List Nat) (acap : Nat)
    (eventq : List MuEvent) (pf now : Nat) (evt : MuEvent)
    (hpk : eventq.getLast? = some evt) (hnd : now < evt.timestamp) :
    promote asap acap eventq pf now = (asap, eventq, pf) := by
  cases eventq with
  | nil => simp at hpk
  | cons e es => simp [promote, promote_go, hpk, hnd]

/-- One promotion iteration: with room in the asap queue and a due tail
event, the wrapper is popped, its thunk is appended to the asap queue and
the wrapper is freed back to the pool. -/
lemma promote_iterate (asap : List Nat) (acap : Nat) (eventq : List MuEvent)
    (pf now : Nat) (evt : MuEvent) (hroom : asap.length < acap)
    (hpk : eventq.getLast? = some evt) (hdue : evt.timestamp ≤ now) :
    promote asap acap eventq pf now =
      promote (asap ++ [evt.thunk]) acap eventq.dropLast (pf + 1) now := by
  cases eventq with
  | nil => simp at hpk
  | cons e es =>
    have hlen : ((e :: es).dropLast).length = es.length := by simp
    simp [promote, promote_go, hpk, Nat.not_le.mpr hroom,
      Nat.not_lt.mpr hdue, hroom, hlen]

/-- The promotion loop body conserves pool blocks plus queued wrappers:
every wrapper removed from the event queue frees exactly one pool
block. -/
lemma promote_go_conserves (fuel : Nat) :
    ∀ (asap : List Nat) (acap : Nat) (eventq : List MuEvent) (pf now : Nat),
      (promote_go fuel asap acap eventq pf now).2.2 +
        (promote_go fuel asap acap eventq pf now).2.1.length =
      pf + eventq.length := by
  induction fuel with
  | zero => intro asap acap eventq pf now; simp [promote_go]
  | succ f ih =>
    intro asap acap eventq pf now
    simp only [promote_go]
    split
    · simp
    · split
      next => simp
      next evt hpk =>
        split
        · simp
        · split
          · rw [ih]
            cases eventq with
            | nil => simp at hpk
            | cons e es =>
              simp
              omega
          · cases eventq with
            | nil => simp at hpk
            | cons e es =>
              simp
              omega

/-- Pool blocks plus queued wrappers are conserved by promotion. -/
lemma promote_conserves (asap : List Nat) (acap : Nat)
    (eventq : List MuEvent) (pf now : Nat) :
    (promote asap acap eventq pf now).2.2 +
      (promote asap acap eventq pf now).2.1.length = pf + eventq.length :=
  promote_go_conserves eventq.length asap acap eventq pf now

/-- Promoting an empty asap queue over a two-event queue whose events are
both due fills the asap queue tail-first (earliest-deadline event first)
and frees both wrappers. -/
lemma promote_two (acap : Nat) (x y : MuEvent) (pf T : Nat)
    (hacap : 2 ≤ acap) (hx : x.timestamp ≤ T) (hy : y.timestamp ≤ T) :
    promote [] acap [x, y] pf T = ([y.thunk, x.thunk], [], pf + 2) := by
  rw [promote_iterate _ _ _ _ _ y (by simp only [List.length_nil]; omega)
    (by simp) hy]
  rw [promote_iterate _ _ _ _ _ x
    (by simp only [List.length_append, List.length_nil, List.length_cons]; omega)
    (by simp) hx]
  simpa using promote_stop_empty _ _ _ _

/-- A step on an initialized, quiescent scheduler with an empty interrupt
queue whose promotion phase leaves the asap queue non-empty dispatches
the head of the promoted asap queue. -/
lemma mu_sched_step_run (s : Sched) (t : Nat) (rest : List Nat)
    (hinit : s.initialized = true) (hcur : s.current_thunk = none)
    (hiq : s.interrupt_q = [])
    (hpr : (promote s.asap_q s.asap_cap s.event_q s.pool_free s.now).1 = t :: rest) :
    mu_sched_step s =
      ({ s with
          asap_q := rest,
          event_q := (promote s.asap_q s.asap_cap s.event_q s.pool_free s.now).2.1,
          pool_free := (promote s.asap_q s.asap_cap s.event_q s.pool_free s.now).2.2,
          current_thunk := none }, [(t, some t)]) := by
  obtain ⟨iq, icap, aq, acap, eq, ecap, pf, pcap, idle, now0, cur, init⟩ := s
  simp only at hinit hcur hiq hpr
  subst hinit hcur hiq
  simp [mu_sched_step, hpr, mu_sched_current_thunk]

/-! The claims. -/

/-- C2: if the interrupt queue is non-empty when an initialized, quiescent
`mu_sched_step` runs its interrupt-drain phase, exactly one interrupt-queue
task is removed and invoked and step returns: the asap queue, event queue,
pool and idle hook are untouched (no promotion, no asap dispatch, no idle
invocation). -/
theorem interrupt_priority_short_circuit (s : Sched) (t : Nat) (rest : List Nat)
    (hinit : s.initialized = true) (hcur : s.current_thunk = none)
    (hiq : s.interrupt_q = t :: rest) :
    mu_sched_step s = ({ s with interrupt_q := rest }, [(t, some t)]) := by
  obtain ⟨iq, icap, aq, acap, eq, ecap, pf, pcap, idle, now0, cur, init⟩ := s
  simp only at hinit hcur hiq
  subst hinit hcur hiq
  simp [mu_sched_step, mu_sched_current_thunk]

/-- C2 witness: a scheduler with queued interrupt, asap and event work
dispatches only the interrupt task; all other queues stay as they were. -/
theorem interrupt_priority_short_circuit_witness :
    mu_sched_step (⟨[7], 4, [5], 4, [⟨1, 2⟩], 4, 3, 4, some 9, 0, none, true⟩ : Sched) =
      ({ (⟨[7], 4, [5], 4, [⟨1, 2⟩], 4, 3, 4, some 9, 0, none, true⟩ : Sched) with
          interrupt_q := [] }, [(7, some 7)]) :=
  interrupt_priority_short_circuit _ 7 [] rfl rfl rfl

/-- C4: one call to `mu_sched_step` invokes at most one task (an
interrupt-queue task, an asap-queue task, or the idle task, or none): the
invocation trace of a single step never has two entries. -/
theorem one_task_per_step (s : Sched) : (mu_sched_step s).2.length ≤ 1 := by
  unfold mu_sched_step
  split
  · simp
  split
  · simp
  split
  · simp
  · cases hpr : (promote s.asap_q s.asap_cap s.event_q s.pool_free s.now).1 with
    | nil =>
      simp only [hpr]
      split <;> simp
    | cons t rest => simp [hpr]

/-- C7: a call to `mu_sched_step` made while `current_thunk` is set (a
nested call from within a task invocation driven by the dispatcher)
returns immediately, invoking nothing and leaving the scheduler state
unchanged. -/
theorem recursion_guard (s : Sched) (t : Nat) (h : s.current_thunk = some t) :
    mu_sched_step s = (s, []) := by
  unfold mu_sched_step
  simp [h]

/-- C7 witness: with a current thunk set, a nested step leaves even queued
interrupt and asap work untouched. -/
theorem recursion_guard_witness :
    mu_sched_step (⟨[4], 4, [5], 4, [], 4, 4, 4, none, 0, some 9, true⟩ : Sched) =
      ((⟨[4], 4, [5], 4, [], 4, 4, 4, none, 0, some 9, true⟩ : Sched), []) :=
  recursion_guard _ 9 rfl

/-- C8: before a successful `mu_sched_init` (or after a failed one) every
entry point is gated: the submission operations return false with no state
change, step and the setters do nothing, the observers return none/false,
and a failed init leaves the initialized flag cleared. -/
theorem uninitialized_gating (s : Sched) (hinit : s.initialized = false) :
    (∀ th, mu_sched_now s th = (s, false)) ∧
    (∀ th ts, mu_sched_at s th ts = (s, false)) ∧
    (∀ th d, mu_sched_in s th d = (s, false)) ∧
    (∀ th, mu_sched_from_isr s th = (s, false)) ∧
    mu_sched_step s = (s, []) ∧
    (∀ idle, mu_sched_set_idle_thunk s idle = s) ∧
    (∀ fn, mu_sched_set_time_fn s fn = s) ∧
    mu_sched_current_thunk s = none ∧
    mu_sched_has_runnable_thunk s = false ∧
    (∀ io ao eo po icap acap ecap pcap,
      (mu_sched_init s io ao eo po icap acap ecap pcap).2 = false →
      (mu_sched_init s io ao eo po icap acap ecap pcap).1.initialized = false) := by
  refine ⟨?_, ?_, ?_, ?_, ?_, ?_, ?_, ?_, ?_, ?_⟩
  · intro th; simp [mu_sched_now, hinit]
  · intro th ts; simp [mu_sched_at, hinit]
  · intro th d; simp [mu_sched_in, hinit]
  · intro th; simp [mu_sched_from_isr, hinit]
  · simp [mu_sched_step, hinit]
  · intro idle; simp [mu_sched_set_idle_thunk, hinit]
  · intro fn; simp [mu_sched_set_time_fn, hinit]
  · simp [mu_sched_current_thunk, hinit]
  · simp [mu_sched_has_runnable_thunk, hinit]
  · intro io ao eo po icap acap ecap pcap hfail
    by_cases hc : io = false ∨ ao = false ∨ eo = false ∨ po = false
    · simp [mu_sched_init, hc]
    · simp [mu_sched_init, hc] at hfail

/-- C8 witness: on an uninitialized scheduler holding stale queue contents,
submission fails without a state change, step does nothing, and the
runnable observer answers false. -/
theorem uninitialized_gating_witness :
    mu_sched_now (⟨[1], 4, [2], 4, [⟨3, 0⟩], 4, 4, 4, some 5, 7, none, false⟩ : Sched) (some 1) =
      ((⟨[1], 4, [2], 4, [⟨3, 0⟩], 4, 4, 4, some 5, 7, none, false⟩ : Sched), false) ∧
    mu_sched_step (⟨[1], 4, [2], 4, [⟨3, 0⟩], 4, 4, 4, some 5, 7, none, false⟩ : Sched) =
      ((⟨[1], 4, [2], 4, [⟨3, 0⟩], 4, 4, 4, some 5, 7, none, false⟩ : Sched), []) ∧
    mu_sched_has_runnable_thunk
      (⟨[1], 4, [2], 4, [⟨3, 0⟩], 4, 4, 4, some 5, 7, none, false⟩ : Sched) = false :=
  ⟨(uninitialized_gating _ rfl).1 (some 1),
   (uninitialized_gating _ rfl).2.2.2.2.1,
   (uninitialized_gating _ rfl).2.2.2.2.2.2.2.2.1⟩

/-- C9: on an initialized scheduler, `mu_sched_has_runnable_thunk` answers
true exactly when the asap queue is non-empty; the event queue (even one
holding an already-due, not-yet-promoted event) plays no part. -/
theorem has_runnable_iff_asap_nonempty (s : Sched)
    (hinit : s.initialized = true) :
    mu_sched_has_runnable_thunk s = true ↔ s.asap_q ≠ [] := by
  simp [mu_sched_has_runnable_thunk, hinit]

/-- C9 witness: an event due at time 5 sits unpromoted in the event queue
at time 9, yet the runnable predicate answers false because the asap queue
is empty. -/
theorem has_runnable_iff_asap_nonempty_witness :
    mu_sched_has_runnable_thunk
      (⟨[], 4, [], 4, [⟨1, 5⟩], 4, 3, 4, none, 9, none, true⟩ : Sched) = false := by
  have h := has_runnable_iff_asap_nonempty
    (⟨[], 4, [], 4, [⟨1, 5⟩], 4, 3, 4, none, 9, none, true⟩ : Sched) rfl
  simpa using h

/-- Sorted insertion grows the event queue by exactly one wrapper. -/
lemma length_sorted_insert_first (l : List MuEvent) (e : MuEvent) :
    (sorted_insert_first l e).length = l.length + 1 := by
  induction l with
  | nil => rfl
  | cons x xs ih =>
    unfold sorted_insert_first
    split
    · simp
    · simp [ih]

/-- `mu_sched_now` preserves the pool/event-queue conservation invariant. -/
lemma pool_invariant_now (s : Sched) (th : Option Nat) (h : pool_invariant s) :
    pool_invariant (mu_sched_now s th).1 := by
  unfold mu_sched_now
  split
  · exact h
  split
  · exact h
  split
  · simpa [pool_invariant] using h
  · exact h

/-- `mu_sched_at` preserves the pool/event-queue conservation invariant:
a successful submission consumes one pool block and queues one wrapper,
and every failure path leaves both untouched. -/
lemma pool_invariant_at (s : Sched) (th : Option Nat) (ts : Nat)
    (h : pool_invariant s) : pool_invariant (mu_sched_at s th ts).1 := by
  unfold mu_sched_at
  split
  · exact h
  split
  · exact h
  split
  · exact h
  next t hpf =>
    split
    · simp only [pool_invariant, length_sorted_insert_first] at h ⊢
      omega
    · exact h

/-- `mu_sched_step` preserves the pool/event-queue conservation invariant:
the only phase touching pool or event queue is promotion, which frees one
block per removed wrapper. -/
lemma pool_invariant_step (s : Sched) (h : pool_invariant s) :
    pool_invariant (mu_sched_step s).1 := by
  by_cases hinit : s.initialized = false
  · simpa [mu_sched_step, hinit] using h
  · cases hcv : s.current_thunk with
    | some t => simpa [mu_sched_step, hinit, hcv] using h
    | none =>
      cases hiq : s.interrupt_q with
      | cons t rest =>
        simp only [pool_invariant] at h
        simp [mu_sched_step, pool_invariant, hinit, hcv, hiq]
        omega
      | nil =>
        have hc := promote_conserves s.asap_q s.asap_cap s.event_q s.pool_free s.now
        simp only [pool_invariant] at h
        cases hpr : (promote s.asap_q s.asap_cap s.event_q s.pool_free s.now).1 with
        | cons t rest =>
          simp [mu_sched_step, pool_invariant, hinit, hcv, hiq, hpr]
          omega
        | nil =>
          cases hidle : s.idle_thunk with
          | some t =>
            simp [mu_sched_step, pool_invariant, hinit, hcv, hiq, hpr, hidle]
            omega
          | none =>
            simp [mu_sched_step, pool_invariant, hinit, hcv, hiq, hpr, hidle]
            omega

/-- C5: the pool conservation invariant — free pool blocks plus wrappers
in the event queue equal the pool capacity — is established by a
successful init and preserved by every entry point; consequently whenever
the event queue is fully drained the pool's free-block count equals its
capacity. -/
theorem pool_conservation :
    (∀ s io ao eo po icap acap ecap pcap,
      (mu_sched_init s io ao eo po icap acap ecap pcap).2 = true →
      pool_invariant (mu_sched_init s io ao eo po icap acap ecap pcap).1) ∧
    (∀ s th, pool_invariant s → pool_invariant (mu_sched_now s th).1) ∧
    (∀ s th ts, pool_invariant s → pool_invariant (mu_sched_at s th ts).1) ∧
    (∀ s th d, pool_invariant s → pool_invariant (mu_sched_in s th d).1) ∧
    (∀ s th, pool_invariant s → pool_invariant (mu_sched_from_isr s th).1) ∧
    (∀ s idle, pool_invariant s → pool_invariant (mu_sched_set_idle_thunk s idle)) ∧
    (∀ s fn, pool_invariant s → pool_invariant (mu_sched_set_time_fn s fn)) ∧
    (∀ s, pool_invariant s → pool_invariant (mu_sched_step s).1) ∧
    (∀ s : Sched, pool_invariant s → s.event_q = [] → s.pool_free = s.pool_cap) := by
  refine ⟨?_, pool_invariant_now, pool_invariant_at, ?_, ?_, ?_, ?_,
    pool_invariant_step, ?_⟩
  · intro s io ao eo po icap acap ecap pcap hok
    by_cases hc : io = false ∨ ao = false ∨ eo = false ∨ po = false
    · simp [mu_sched_init, hc] at hok
    · simp [mu_sched_init, hc, pool_invariant]
  · intro s th d h
    unfold mu_sched_in
    split
    · exact h
    split
    · exact h
    · exact pool_invariant_at _ _ _ h
  · intro s th h
    unfold mu_sched_from_isr
    split
    · exact h
    split
    · exact h
    split
    · simpa [pool_invariant] using h
    · exact h
  · intro s idle h
    unfold mu_sched_set_idle_thunk
    split
    · exact h
    · simpa [pool_invariant] using h
  · intro s fn h
    unfold mu_sched_set_time_fn
    split
    · exact h
    · simpa [pool_invariant] using h
  · intro s h heq
    simp only [pool_invariant, heq, List.length_nil, Nat.add_zero] at h
    exact h

/-- C5 witness: stepping a scheduler that satisfies the invariant with one
due queued event preserves it, and a fully drained scheduler has all pool
blocks free. -/
theorem pool_conservation_witness :
    pool_invariant
      (mu_sched_step (⟨[], 4, [], 4, [⟨1, 0⟩], 4, 3, 4, none, 5, none, true⟩ : Sched)).1 ∧
    (⟨[], 4, [], 4, [], 4, 4, 4, none, 0, none, true⟩ : Sched).pool_free =
      (⟨[], 4, [], 4, [], 4, 4, 4, none, 0, none, true⟩ : Sched).pool_cap :=
  ⟨pool_conservation.2.2.2.2.2.2.2.1 _ (by unfold pool_invariant; decide),
   pool_conservation.2.2.2.2.2.2.2.2 _ (by unfold pool_invariant; decide) rfl⟩

/-- C3: the event-promotion rule of one `mu_sched_step`.  The loop stops
immediately when the event queue is empty, when the asap queue is full,
and when the tail event is not yet due; otherwise, while the asap queue
has room and the tail wrapper's deadline is not strictly after `now`, the
wrapper is removed, its task pushed onto the asap queue and the wrapper
freed to the pool.  Within step, the loop runs on the time sampled once
from the scheduler's time source at the start of promotion and determines
the resulting event queue, pool count, and (up to the single asap
dispatch that follows) asap queue. -/
theorem event_promotion_rule :
    (∀ asap acap pf now, promote asap acap ([] : List MuEvent) pf now = (asap, [], pf)) ∧
    (∀ asap acap eventq pf now, acap ≤ asap.length →
      promote asap acap eventq pf now = (asap, eventq, pf)) ∧
    (∀ asap acap eventq pf now evt, eventq.getLast? = some evt → now < evt.timestamp →
      promote asap acap eventq pf now = (asap, eventq, pf)) ∧
    (∀ asap acap eventq pf now evt, asap.length < acap →
      eventq.getLast? = some evt → evt.timestamp ≤ now →
      promote asap acap eventq pf now =
        promote (asap ++ [evt.thunk]) acap eventq.dropLast (pf + 1) now) ∧
    (∀ s : Sched, s.initialized = true → s.current_thunk = none → s.interrupt_q = [] →
      (mu_sched_step s).1.event_q =
        (promote s.asap_q s.asap_cap s.event_q s.pool_free s.now).2.1 ∧
      (mu_sched_step s).1.pool_free =
        (promote s.asap_q s.asap_cap s.event_q s.pool_free s.now).2.2 ∧
      (mu_sched_step s).1.asap_q =
        (promote s.asap_q s.asap_cap s.event_q s.pool_free s.now).1.drop 1) := by
  refine ⟨promote_stop_empty, promote_stop_full,
    fun a b c d e f h1 h2 => promote_stop_not_due a b c d e f h1 h2,
    fun a b c d e f h1 h2 h3 => promote_iterate a b c d e f h1 h2 h3, ?_⟩
  intro s hinit hcur hiq
  cases hpr : (promote s.asap_q s.asap_cap s.event_q s.pool_free s.now).1 with
  | cons t rest => simp [mu_sched_step, hinit, hcur, hiq, hpr]
  | nil =>
    cases hidle : s.idle_thunk <;>
      simp [mu_sched_step, hinit, hcur, hiq, hpr, hidle]

/-- C3 witness: a due tail event is promoted (thunk pushed, wrapper
freed), a not-yet-due tail event stops the loop, and a full asap queue
stops the loop. -/
theorem event_promotion_rule_witness :
    promote [] 4 [⟨5, 3⟩] 2 10 = promote [5] 4 [] 3 10 ∧
    promote [] 4 [⟨5, 12⟩] 2 10 = ([], [⟨5, 12⟩], 2) ∧
    promote [9, 8] 2 [⟨5, 3⟩] 2 10 = ([9, 8], [⟨5, 3⟩], 2) :=
  ⟨by
    have h := event_promotion_rule.2.2.2.1 [] 4 [⟨5, 3⟩] 2 10 ⟨5, 3⟩
      (by decide) (by decide) (by decide)
    simpa using h,
   event_promotion_rule.2.2.1 [] 4 [⟨5, 12⟩] 2 10 ⟨5, 12⟩ (by decide) (by decide),
   event_promotion_rule.2.1 [9, 8] 2 [⟨5, 3⟩] 2 10 (by decide)⟩

/-- C6: within a task's invocation — interrupt task, asap task or idle
hook alike — `mu_sched_current_thunk` returns exactly that task (every
trace entry observes itself as current); outside any invocation, between
tasks and during queue management, it returns none: a quiescent scheduler
stays quiescent across step, and no submission or setter touches the
current thunk. -/
theorem current_thunk_contract :
    (∀ (s : Sched) (p : Nat × Option Nat), p ∈ (mu_sched_step s).2 → p.2 = some p.1) ∧
    (∀ s : Sched, s.current_thunk = none → (mu_sched_step s).1.current_thunk = none) ∧
    (∀ s : Sched, s.current_thunk = none → mu_sched_current_thunk s = none) ∧
    (∀ s th, (mu_sched_now s th).1.current_thunk = s.current_thunk) ∧
    (∀ s th ts, (mu_sched_at s th ts).1.current_thunk = s.current_thunk) ∧
    (∀ s th d, (mu_sched_in s th d).1.current_thunk = s.current_thunk) ∧
    (∀ s th, (mu_sched_from_isr s th).1.current_thunk = s.current_thunk) ∧
    (∀ s idle, (mu_sched_set_idle_thunk s idle).current_thunk = s.current_thunk) ∧
    (∀ s fn, (mu_sched_set_time_fn s fn).current_thunk = s.current_thunk) := by
  refine ⟨?_, ?_, ?_, ?_, ?_, ?_, ?_, ?_, ?_⟩
  · intro s p hp
    by_cases hinit : s.initialized = false
    · simp [mu_sched_step, hinit] at hp
    · cases hcv : s.current_thunk with
      | some t => simp [mu_sched_step, hinit, hcv] at hp
      | none =>
        cases hiq : s.interrupt_q with
        | cons t rest =>
          simp [mu_sched_step, hinit, hcv, hiq, mu_sched_current_thunk] at hp
          simp [hp]
        | nil =>
          cases hpr : (promote s.asap_q s.asap_cap s.event_q s.pool_free s.now).1 with
          | cons t rest =>
            simp [mu_sched_step, hinit, hcv, hiq, hpr, mu_sched_current_thunk] at hp
            simp [hp]
          | nil =>
            cases hidle : s.idle_thunk with
            | some t =>
              simp [mu_sched_step, hinit, hcv, hiq, hpr, hidle,
                mu_sched_current_thunk] at hp
              simp [hp]
            | none =>
              simp [mu_sched_step, hinit, hcv, hiq, hpr, hidle] at hp
  · intro s hcv
    by_cases hinit : s.initialized = false
    · simp [mu_sched_step, hinit, hcv]
    · cases hiq : s.interrupt_q with
      | cons t rest => simp [mu_sched_step, hinit, hcv, hiq]
      | nil =>
        cases hpr : (promote s.asap_q s.asap_cap s.event_q s.pool_free s.now).1 with
        | cons t rest => simp [mu_sched_step, hinit, hcv, hiq, hpr]
        | nil =>
          cases hidle : s.idle_thunk <;>
            simp [mu_sched_step, hinit, hcv, hiq, hpr, hidle]
  · intro s hcv
    simp [mu_sched_current_thunk, hcv]
  · intro s th
    unfold mu_sched_now
    split
    · rfl
    split
    · rfl
    split <;> rfl
  · intro s th ts
    unfold mu_sched_at
    split
    · rfl
    split
    · rfl
    split
    · rfl
    split <;> rfl
  · intro s th d
    unfold mu_sched_in
    split
    · rfl
    split
    · rfl
    · unfold mu_sched_at
      split
      · rfl
      split
      · rfl
      split
      · rfl
      split <;> rfl
  · intro s th
    unfold mu_sched_from_isr
    split
    · rfl
    split
    · rfl
    split <;> rfl
  · intro s idle
    unfold mu_sched_set_idle_thunk
    split <;> rfl
  · intro s fn
    unfold mu_sched_set_time_fn
    split <;> rfl

/-- C6 witness: the single invocation of a step dispatching asap task 3
observes itself as current, and the step returns with no current thunk. -/
theorem current_thunk_contract_witness :
    ((3 : Nat), (some 3 : Option Nat)).2 = some ((3 : Nat), (some 3 : Option Nat)).1 ∧
    (mu_sched_step (⟨[], 4, [3], 4, [], 4, 4, 4, none, 0, none, true⟩ : Sched)).1.current_thunk
      = none :=
  ⟨current_thunk_contract.1 (⟨[], 4, [3], 4, [], 4, 4, 4, none, 0, none, true⟩ : Sched)
    (3, some 3) (by decide),
   current_thunk_contract.2.1 (⟨[], 4, [3], 4, [], 4, 4, 4, none, 0, none, true⟩ : Sched) rfl⟩

/-- C1: event-queue dispatch order.  From an initialized, quiescent
scheduler with room for both submissions, two successful `mu_sched_at`
submissions whose deadlines have both been reached are dispatched by
successive steps earliest-deadline-first regardless of submission order,
and on a deadline tie the earlier-submitted task runs first: submitting
`ta` at `da` then `tb` at `db` and advancing the clock to `T ≥ da, db`,
the next two steps invoke `[tb, ta]` when `db < da` and `[ta, tb]`
otherwise (so on a tie the first-submitted `ta` runs first). -/
theorem event_queue_dispatch_order (s : Sched) (ta tb da db T : Nat)
    (hinit : s.initialized = true) (hiq : s.interrupt_q = [])
    (haq : s.asap_q = []) (heq : s.event_q = []) (hcur : s.current_thunk = none)
    (hacap : 2 ≤ s.asap_cap) (hecap : 2 ≤ s.event_cap) (hpool : 2 ≤ s.pool_free)
    (hTa : da ≤ T) (hTb : db ≤ T) :
    (mu_sched_at s (some ta) da).2 = true ∧
    (mu_sched_at (mu_sched_at s (some ta) da).1 (some tb) db).2 = true ∧
    ((mu_sched_step (mu_sched_set_time_fn
        (mu_sched_at (mu_sched_at s (some ta) da).1 (some tb) db).1 (some T))).2.map Prod.fst) ++
    ((mu_sched_step (mu_sched_step (mu_sched_set_time_fn
        (mu_sched_at (mu_sched_at s (some ta) da).1 (some tb) db).1 (some T))).1).2.map Prod.fst) =
      (if db < da then [tb, ta] else [ta, tb]) := by
  obtain ⟨iq, icap, aq, acap, eq, ecap, pf, pcap, idle, now0, cur, init⟩ := s
  simp only at hinit hiq haq heq hcur hacap hecap hpool
  subst hinit hiq haq heq hcur
  have hpf0 : ¬ (pf = 0) := by omega
  have hpf1 : ¬ (pf - 1 = 0) := by omega
  have he0 : (0 : Nat) < ecap := by omega
  have he1 : (1 : Nat) < ecap := by omega
  have h1 : mu_sched_at ⟨[], icap, [], acap, [], ecap, pf, pcap, idle, now0, none, true⟩
      (some ta) da
      = (⟨[], icap, [], acap, [⟨ta, da⟩], ecap, pf - 1, pcap, idle, now0, none, true⟩, true) := by
    simp [mu_sched_at, sorted_insert_first, hpf0, he0]
  refine ⟨by simp [h1], ?_, ?_⟩
  · rw [h1]
    simp [mu_sched_at, hpf1, he1]
  · rw [h1]
    by_cases hba : db < da
    · have h2 : mu_sched_at
          ⟨[], icap, [], acap, [⟨ta, da⟩], ecap, pf - 1, pcap, idle, now0, none, true⟩
          (some tb) db
          = (⟨[], icap, [], acap, [⟨ta, da⟩, ⟨tb, db⟩], ecap, pf - 1 - 1, pcap,
              idle, now0, none, true⟩, true) := by
        simp [mu_sched_at, sorted_insert_first, compare_events, hpf1, he1, hba,
          Nat.not_lt.mpr (Nat.le_of_lt hba)]
      rw [h2]
      have h3 : mu_sched_set_time_fn
          ⟨[], icap, [], acap, [⟨ta, da⟩, ⟨tb, db⟩], ecap, pf - 1 - 1, pcap,
            idle, now0, none, true⟩ (some T)
          = ⟨[], icap, [], acap, [⟨ta, da⟩, ⟨tb, db⟩], ecap, pf - 1 - 1, pcap,
              idle, T, none, true⟩ := by
        simp [mu_sched_set_time_fn]
      rw [h3]
      have hp2 : promote [] acap [⟨ta, da⟩, ⟨tb, db⟩] (pf - 1 - 1) T
          = ([tb, ta], [], pf - 1 - 1 + 2) :=
        promote_two acap ⟨ta, da⟩ ⟨tb, db⟩ (pf - 1 - 1) T hacap hTa hTb
      have hs1 := mu_sched_step_run
        ⟨[], icap, [], acap, [⟨ta, da⟩, ⟨tb, db⟩], ecap, pf - 1 - 1, pcap, idle, T, none, true⟩
        tb [ta] rfl rfl rfl (by rw [hp2])
      rw [hp2] at hs1
      rw [hs1]
      have hs2 := mu_sched_step_run
        ⟨[], icap, [ta], acap, [], ecap, pf - 1 - 1 + 2, pcap, idle, T, none, true⟩
        ta [] rfl rfl rfl (by rw [promote_stop_empty])
      rw [promote_stop_empty] at hs2
      simp only at hs1 hs2 ⊢
      simp [hs2, hba]
    · have hc : (if da < db then (-1 : Int) else 0) ≤ 0 := by split <;> decide
      have h2 : mu_sched_at
          ⟨[], icap, [], acap, [⟨ta, da⟩], ecap, pf - 1, pcap, idle, now0, none, true⟩
          (some tb) db
          = (⟨[], icap, [], acap, [⟨tb, db⟩, ⟨ta, da⟩], ecap, pf - 1 - 1, pcap,
              idle, now0, none, true⟩, true) := by
        simp [mu_sched_at, sorted_insert_first, compare_events, hpf1, he1, hba, hc]
      rw [h2]
      have h3 : mu_sched_set_time_fn
          ⟨[], icap, [], acap, [⟨tb, db⟩, ⟨ta, da⟩], ecap, pf - 1 - 1, pcap,
            idle, now0, none, true⟩ (some T)
          = ⟨[], icap, [], acap, [⟨tb, db⟩, ⟨ta, da⟩], ecap, pf - 1 - 1, pcap,
              idle, T, none, true⟩ := by
        simp [mu_sched_set_time_fn]
      rw [h3]
      have hp2 : promote [] acap [⟨tb, db⟩, ⟨ta, da⟩] (pf - 1 - 1) T
          = ([ta, tb], [], pf - 1 - 1 + 2) :=
        promote_two acap ⟨tb, db⟩ ⟨ta, da⟩ (pf - 1 - 1) T hacap hTb hTa
      have hs1 := mu_sched_step_run
        ⟨[], icap, [], acap, [⟨tb, db⟩, ⟨ta, da⟩], ecap, pf - 1 - 1, pcap, idle, T, none, true⟩
        ta [tb] rfl rfl rfl (by rw [hp2])
      rw [hp2] at hs1
      rw [hs1]
      have hs2 := mu_sched_step_run
        ⟨[], icap, [tb], acap, [], ecap, pf - 1 - 1 + 2, pcap, idle, T, none, true⟩
        tb [] rfl rfl rfl (by rw [promote_stop_empty])
      rw [promote_stop_empty] at hs2
      simp only at hs1 hs2 ⊢
      simp [hs2, hba]

/-- C1 witness: task 1 submitted first with deadline 3, task 2 second with
deadline 5; after the clock reaches 9, two steps dispatch [1, 2]. -/
theorem event_queue_dispatch_order_witness :
    ((mu_sched_step (mu_sched_set_time_fn
        (mu_sched_at (mu_sched_at (⟨[], 4, [], 4, [], 4, 4, 4, none, 0, none, true⟩ : Sched)
          (some 1) 3).1 (some 2) 5).1 (some 9))).2.map Prod.fst) ++
    ((mu_sched_step (mu_sched_step (mu_sched_set_time_fn
        (mu_sched_at (mu_sched_at (⟨[], 4, [], 4, [], 4, 4, 4, none, 0, none, true⟩ : Sched)
          (some 1) 3).1 (some 2) 5).1 (some 9))).1).2.map Prod.fst) =
      (if 5 < 3 then [2, 1] else [1, 2]) :=
  (event_queue_dispatch_order _ 1 2 3 5 9 rfl rfl rfl rfl rfl
    (by decide) (by decide) (by decide) (by decide) (by decide)).2.2

/-- C10: no duplicate-submission check.  On any initialized scheduler with
two free asap slots, submitting the same task twice with `mu_sched_now`
succeeds both times and enqueues it twice; when the scheduler is otherwise
idle, the next two steps invoke the task twice. -/
theorem duplicate_submission_no_check (s : Sched) (t : Nat)
    (hinit : s.initialized = true) (hroom : s.asap_q.length + 2 ≤ s.asap_cap) :
    (mu_sched_now s (some t)).2 = true ∧
    (mu_sched_now (mu_sched_now s (some t)).1 (some t)).2 = true ∧
    (mu_sched_now (mu_sched_now s (some t)).1 (some t)).1.asap_q = s.asap_q ++ [t, t] ∧
    (s.asap_q = [] → s.interrupt_q = [] → s.event_q = [] → s.current_thunk = none →
      (mu_sched_step (mu_sched_now (mu_sched_now s (some t)).1 (some t)).1).2.map Prod.fst
        = [t] ∧
      (mu_sched_step (mu_sched_step
        (mu_sched_now (mu_sched_now s (some t)).1 (some t)).1).1).2.map Prod.fst = [t]) := by
  obtain ⟨iq, icap, aq, acap, eq, ecap, pf, pcap, idle, now0, cur, init⟩ := s
  simp only at hinit hroom
  subst hinit
  have h1 : aq.length < acap := by omega
  have h2 : aq.length + 1 < acap := by omega
  refine ⟨by simp [mu_sched_now, h1], by simp [mu_sched_now, h1, h2],
    by simp [mu_sched_now, h1, h2], ?_⟩
  rintro rfl rfl rfl rfl
  simp only [List.length_nil] at hroom
  have h3 : 0 < acap := by omega
  have h4 : 1 < acap := by omega
  have hs1 := mu_sched_step_run
    ⟨[], icap, [t, t], acap, [], ecap, pf, pcap, idle, now0, none, true⟩ t [t]
    rfl rfl rfl (by rw [promote_stop_empty])
  rw [promote_stop_empty] at hs1
  have hs2 := mu_sched_step_run
    ⟨[], icap, [t], acap, [], ecap, pf, pcap, idle, now0, none, true⟩ t []
    rfl rfl rfl (by rw [promote_stop_empty])
  rw [promote_stop_empty] at hs2
  refine ⟨?_, ?_⟩ <;> simp [mu_sched_now, h3, h4, hs1, hs2]

/-- C10 witness: submitting task 6 twice on a fresh scheduler succeeds,
the asap queue holds it twice, and the first step invokes it. -/
theorem duplicate_submission_no_check_witness :
    (mu_sched_now (⟨[], 4, [], 4, [], 4, 4, 4, none, 0, none, true⟩ : Sched) (some 6)).2 = true ∧
    (mu_sched_now (mu_sched_now (⟨[], 4, [], 4, [], 4, 4, 4, none, 0, none, true⟩ : Sched)
      (some 6)).1 (some 6)).1.asap_q = [6, 6] ∧
    (mu_sched_step (mu_sched_now (mu_sched_now
      (⟨[], 4, [], 4, [], 4, 4, 4, none, 0, none, true⟩ : Sched)
      (some 6)).1 (some 6)).1).2.map Prod.fst = [6] := by
  have h := duplicate_submission_no_check
    (⟨[], 4, [], 4, [], 4, 4, 4, none, 0, none, true⟩ : Sched) 6 rfl (by decide)
  exact ⟨h.1, by simpa using h.2.2.1, (h.2.2.2 rfl rfl rfl rfl).1⟩
